import Mathlib

/-
Verification development for the rosetta runtime-reflection engine and its
Python example scripts.

The reflection core (Value, descriptors, TypeRegistry, ReflectiveObject,
NameConverter, JsonExporter) is the C++ library of this repository; only its
Python consumers are present under the example scripts, so the core is
modelled from the specification (each such definition's doc comment says so).
`module_priority` and the module-selection logic are translated directly
from examples/python/functions/find_and_test.py.
-/

namespace Rosetta

/-- Modelled from the spec: `Value`, the closed sum type crossing the
static/dynamic boundary (`Null`, `Bool`, `Int64`, `Float64`, `String`,
`Sequence<Value>`, `Mapping<String, Value>`, `ObjectRef`).  A `Float64` is
represented by its decimal literal, a signed mantissa `m` and a number of
fractional digits `e`, denoting `m * 10 ^ (-e)`; an `ObjectRef` is an opaque
handle, a numeric id into an object heap. -/
inductive Value where
  | null : Value
  | bool (b : Bool) : Value
  | int (n : Int) : Value
  | float (m : Int) (e : Nat) : Value
  | str (s : String) : Value
  | seq (vs : List Value) : Value
  | map (kvs : List (String × Value)) : Value
  | objRef (id : Nat) : Value

/-- Modelled from the spec: `TypeTag`, the declared semantic type of a member
or parameter, gating `set`/argument marshaling. -/
inductive TypeTag where
  | nullT | boolT | intT | floatT | stringT | seqT | mapT | objRefT
deriving DecidableEq

/-- Modelled from the spec: the error taxonomy of §7.  `outOfFuel` is a
modelling artifact of the bounded export recursion and is proved not to occur
in the cyclic-export theorem. -/
inductive RosettaError where
  | duplicateClass | classNotFound | unknownMember | readOnlyMember
  | typeMismatch | unknownMethod | arityMismatch | argTypeMismatch
  | constructorArityMismatch | constructorTypeMismatch | cyclicReference
  | danglingReference | outOfFuel
deriving DecidableEq

/-- Modelled from the spec: the type-erased `InstanceHandle`, accessed only
through descriptor closures; concretely a field store mapping field names to
dynamic values. -/
def InstanceHandle : Type := List (String × Value)

/-- Modelled from the spec: marshaling a `Value` against a declared
`TypeTag`; conversion must fail on mismatch, with no silent narrowing
(a `Float64` is rejected where an `Int64` is declared). -/
def valueMatches : TypeTag → Value → Bool
  | .nullT, .null => true
  | .boolT, .bool _ => true
  | .intT, .int _ => true
  | .floatT, .float _ _ => true
  | .stringT, .str _ => true
  | .seqT, .seq _ => true
  | .mapT, .map _ => true
  | .objRefT, .objRef _ => true
  | _, _ => false

/-- Modelled from the spec: marshaling an argument sequence against a
parameter type list, position by position. -/
def argsMatch : List TypeTag → List Value → Bool
  | [], [] => true
  | t :: ts, v :: vs => valueMatches t v && argsMatch ts vs
  | _, _ => false

/-- Modelled from the spec: `MemberDescriptor` — name, declared semantic
type, a getter closure, and an optional setter closure (absent for read-only
members). -/
structure MemberDescriptor where
  name : String
  declaredType : TypeTag
  get : InstanceHandle → Value
  set : Option (InstanceHandle → Value → InstanceHandle)

/-- Modelled from the spec: `MethodDescriptor` — canonical name, optional
explicitly declared alternate name, parameter type list, and an invoker
closure returning a result value together with the updated instance. -/
structure MethodDescriptor where
  canonicalName : String
  altName : Option String
  paramTypes : List TypeTag
  invoke : InstanceHandle → List Value → Except RosettaError (Value × InstanceHandle)

/-- Modelled from the spec: `ClassDescriptor` — class name plus ordered
member and method catalogs. -/
structure ClassDescriptor where
  className : String
  members : List MemberDescriptor
  methods : List MethodDescriptor

/-- Modelled from the spec: `ReflectiveObject`, a live instance bound to its
class's descriptor set. -/
structure ReflectiveObject where
  classDescriptor : ClassDescriptor
  inst : InstanceHandle

/-- Modelled from the spec: `TypeRegistry`, the process-wide catalog mapping
class name to `ClassDescriptor`, in registration order. -/
structure TypeRegistry where
  classes : List (String × ClassDescriptor)

/-- Modelled from the spec: the getter closure of a field-backed member, as
produced by registration — it reads the named field of the store. -/
def fieldGet (key : String) (i : InstanceHandle) : Value :=
  (List.lookup key i).getD .null

/-- Modelled from the spec: the setter closure of a field-backed member —
it stores the marshaled value under the member's field name. -/
def fieldSet (key : String) (i : InstanceHandle) (v : Value) : InstanceHandle :=
  (key, v) :: i

/-- Modelled from the spec: a registered read-write member bound to a
concrete field. -/
def fieldMember (nm : String) (ty : TypeTag) : MemberDescriptor :=
  { name := nm, declaredType := ty, get := fieldGet nm, set := some (fieldSet nm) }

/-- Modelled from the spec: name-indexed member lookup in a class's ordered
member catalog. -/
def findMember (cd : ClassDescriptor) (nm : String) : Option MemberDescriptor :=
  cd.members.find? (fun m => m.name == nm)

/-- Modelled from the spec: `getMemberNames() → OrderedSequence<String>`,
same order as registration. -/
def getMemberNames (obj : ReflectiveObject) : List String :=
  obj.classDescriptor.members.map (fun m => m.name)

/-- Modelled from the spec: `getMemberValue(name)` — looks up the
`MemberDescriptor` by name (absent name fails with `UnknownMember`, never
conflated with a `Null` value) and calls its getter. -/
def getMemberValue (obj : ReflectiveObject) (nm : String) : Except RosettaError Value :=
  match findMember obj.classDescriptor nm with
  | none => .error .unknownMember
  | some m => .ok (m.get obj.inst)

/-- Modelled from the spec: `setMemberValue(name, value)` — looks up the
descriptor (absent → `UnknownMember`), requires a setter (absent →
`ReadOnlyMember`), marshals against `declaredType` (mismatch →
`TypeMismatch`), and only then mutates.  The returned pair is the call's
result and the state of the object after the call. -/
def setMemberValue (obj : ReflectiveObject) (nm : String) (v : Value) :
    Except RosettaError Unit × ReflectiveObject :=
  match findMember obj.classDescriptor nm with
  | none => (.error .unknownMember, obj)
  | some m =>
    match m.set with
    | none => (.error .readOnlyMember, obj)
    | some setter =>
      if valueMatches m.declaredType v then
        (.ok (), { obj with inst := setter obj.inst v })
      else
        (.error .typeMismatch, obj)

/-- The 26 ASCII lower-case letters, the canonical word alphabet. -/
def lowerChars : List Char :=
  [ 'a', 'b', 'c', 'd', 'e', 'f', 'g', 'h', 'i', 'j', 'k', 'l', 'm',
    'n', 'o', 'p', 'q', 'r', 's', 't', 'u', 'v', 'w', 'x', 'y', 'z' ]

/-- The 26 ASCII upper-case letters, in the same order. -/
def upperChars : List Char :=
  [ 'A', 'B', 'C', 'D', 'E', 'F', 'G', 'H', 'I', 'J', 'K', 'L', 'M',
    'N', 'O', 'P', 'Q', 'R', 'S', 'T', 'U', 'V', 'W', 'X', 'Y', 'Z' ]

/-- Modelled from the spec: locale-free ASCII upper-casing of one character
(identity outside the ASCII lower-case range). -/
def asciiUpper (c : Char) : Char :=
  ((lowerChars.zip upperChars).lookup c).getD c

/-- Modelled from the spec: locale-free ASCII lower-casing of one character
(identity outside the ASCII upper-case range). -/
def asciiLower (c : Char) : Char :=
  ((upperChars.zip lowerChars).lookup c).getD c

/-- Whether a character is an ASCII upper-case letter. -/
def isAsciiUpper (c : Char) : Bool :=
  upperChars.contains c

/-- Modelled from the spec: the character scan behind
`toAlternateConvention` — each underscore is dropped and the character
following it is capitalized; all other characters pass through. -/
def capWords : List Char → List Char
  | [] => []
  | '_' :: c :: rest => asciiUpper c :: capWords rest
  | '_' :: [] => []
  | c :: rest => c :: capWords rest

/-- Modelled from the spec: the per-character inverse scan — an upper-case
letter opens a new word, becoming an underscore followed by its lower-case
form; all other characters pass through. -/
def canonChar (c : Char) : List Char :=
  if isAsciiUpper c then ['_', asciiLower c] else [c]

/-- Modelled from the spec: `toAlternateConvention` — canonical snake_case
to the alternate (camelCase) convention; a pure, total, deterministic string
transform with no locale dependency. -/
def toAlternateConvention (s : String) : String :=
  String.mk (capWords s.data)

/-- Modelled from the spec: `toCanonical` — the inverse transform from the
alternate convention back to canonical snake_case. -/
def toCanonical (s : String) : String :=
  String.mk (s.data.flatMap canonChar)

/-- Modelled from the spec: the alternate name under which a method also
resolves — the explicitly declared `altName` when the class declares one
(taking precedence over the mechanical rule), otherwise the mechanical
transform of the canonical name. -/
def methodAltName (m : MethodDescriptor) : String :=
  m.altName.getD (toAlternateConvention m.canonicalName)

/-- Modelled from the spec: method resolution — the name is tried first
against canonical names, then against the alternate-convention names. -/
def findMethod (cd : ClassDescriptor) (nm : String) : Option MethodDescriptor :=
  match cd.methods.find? (fun m => m.canonicalName == nm) with
  | some m => some m
  | none => cd.methods.find? (fun m => methodAltName m == nm)

/-- Modelled from the spec: `callMethod(name, args)` — resolves the name
(failing with `UnknownMethod`), checks arity before anything else (failing
with `ArityMismatch`, never invoking), marshals each argument (failing with
`ArgTypeMismatch`), then invokes and propagates the invoker's own result or
error.  The returned pair is the call's result and the state of the object
after the call. -/
def callMethod (obj : ReflectiveObject) (nm : String) (args : List Value) :
    Except RosettaError Value × ReflectiveObject :=
  match findMethod obj.classDescriptor nm with
  | none => (.error .unknownMethod, obj)
  | some m =>
    if args.length = m.paramTypes.length then
      if argsMatch m.paramTypes args then
        match m.invoke obj.inst args with
        | .ok (v, i) => (.ok v, { obj with inst := i })
        | .error e => (.error e, obj)
      else (.error .argTypeMismatch, obj)
    else (.error .arityMismatch, obj)

/-- Modelled from the spec: `TypeRegistry.lookup(className)`, a pure read. -/
def TypeRegistry.lookupClass (reg : TypeRegistry) (nm : String) : Option ClassDescriptor :=
  reg.classes.lookup nm

/-- Modelled from the spec: `TypeRegistry.register(descriptor)` — fails with
`DuplicateClass` if the class name is already present, otherwise appends in
registration order.  The returned pair is the call's result and the registry
after the call. -/
def TypeRegistry.register (reg : TypeRegistry) (cd : ClassDescriptor) :
    Except RosettaError Unit × TypeRegistry :=
  match reg.classes.lookup cd.className with
  | some _ => (.error .duplicateClass, reg)
  | none => (.ok (), ⟨reg.classes ++ [(cd.className, cd)]⟩)

/-- Modelled from the spec: the object heap resolving opaque `ObjectRef`
handles to live reflective instances. -/
def Heap : Type := List (Nat × ReflectiveObject)

/-- Modelled from the spec: standard JSON string escaping of one character. -/
def jsonEscapeChar (c : Char) : List Char :=
  if c = '"' then ['\\', '"']
  else if c = '\\' then ['\\', '\\']
  else [c]

/-- Modelled from the spec: a JSON string literal — quoted, with standard
escaping. -/
def jsonQuote (s : String) : String :=
  "\"" ++ String.mk (s.data.flatMap jsonEscapeChar) ++ "\""

/-- Modelled from the spec: the numeric literal of a `Float64` — it always
includes a decimal point, never a bare integer. -/
def floatLit (m : Int) (e : Nat) : String :=
  if e = 0 then toString m ++ ".0"
  else
    let digits := toString m.natAbs
    let padded :=
      if e + 1 ≤ digits.length then digits
      else String.mk (List.replicate (e + 1 - digits.length) '0') ++ digits
    (if m < 0 then "-" else "")
      ++ padded.take (padded.length - e) ++ "." ++ padded.drop (padded.length - e)

/-- Modelled from the spec: the recursive JSON encoding of one `Value` —
`Null→null`, `Bool→true/false`, numerics as literals, strings quoted,
sequences as arrays, mappings as objects, and `ObjectRef` as the nested
object obtained by recursive export with cycle detection: a reference chain
revisiting an already-open object fails with `CyclicReference`.  The nested
object document's keys are exactly the object's member names in registration
order, each value the encoding of the corresponding `getMemberValue` result;
a member retrieval failure aborts the whole export.  The `fuel` parameter
bounds the recursion depth for the embedding; exhaustion yields the
modelling-only `outOfFuel` error. -/
def exportVal : Nat → Heap → List Nat → Value → Except RosettaError String
  | 0, _, _, _ => .error .outOfFuel
  | fuel + 1, heap, visited, v =>
    match v with
    | .null => .ok "null"
    | .bool b => .ok (if b then "true" else "false")
    | .int n => .ok (toString n)
    | .float m e => .ok (floatLit m e)
    | .str s => .ok (jsonQuote s)
    | .seq vs => do
      let parts ← vs.mapM (exportVal fuel heap visited)
      .ok ("[" ++ String.intercalate ", " parts ++ "]")
    | .map kvs => do
      let parts ← kvs.mapM (fun kv => do
        let s ← exportVal fuel heap visited kv.2
        pure (jsonQuote kv.1 ++ ": " ++ s))
      .ok ("\x7b" ++ String.intercalate ", " parts ++ "\x7d")
    | .objRef id =>
      if visited.contains id then .error .cyclicReference
      else
        match heap.lookup id with
        | none => .error .danglingReference
        | some obj => do
          let parts ← (getMemberNames obj).mapM (fun nm => do
            let mv ← getMemberValue obj nm
            let s ← exportVal fuel heap (id :: visited) mv
            pure (jsonQuote nm ++ ": " ++ s))
          .ok ("\x7b" ++ String.intercalate ", " parts ++ "\x7d")

/-- Modelled from the spec: `JsonExporter.export(obj)` applied to an object
opened at the root — keys are exactly `getMemberNames()` in that order,
values the JSON encodings of the `getMemberValue` results; any member
retrieval failure aborts the whole export. -/
def exportObject (fuel : Nat) (heap : Heap) (visited : List Nat)
    (obj : ReflectiveObject) : Except RosettaError String := do
  let parts ← (getMemberNames obj).mapM (fun nm => do
    let mv ← getMemberValue obj nm
    let s ← exportVal fuel heap visited mv
    pure (jsonQuote nm ++ ": " ++ s))
  .ok ("\x7b" ++ String.intercalate ", " parts ++ "\x7d")

/-- Modelled from the spec: the fuel that the bounded embedding grants an
export over a given heap — opening every heap object once, plus slack. -/
def heapFuel (heap : Heap) : Nat :=
  2 * heap.length + 3

/-- Modelled from the spec: `toJson()` on a reflective object. -/
def toJson (heap : Heap) (obj : ReflectiveObject) : Except RosettaError String :=
  exportObject (heapFuel heap) heap [] obj

/-- Modelled from the spec: exporting the heap object behind a handle (the
root object counts as open while its document is being produced). -/
def toJsonRef (heap : Heap) (id : Nat) : Except RosettaError String :=
  exportVal (heapFuel heap) heap [] (.objRef id)

/-- Modelled from the spec: the example `Person` class descriptor — members
`name`, `age`, `height` in registration order; methods `introduce` (reports
a greeting, no state change) and `celebrate_birthday` (increments `age`),
both taking zero arguments, with no explicitly declared alternate names. -/
def personDescriptor : ClassDescriptor :=
  { className := "Person"
    members := [fieldMember "name" .stringT, fieldMember "age" .intT,
                fieldMember "height" .floatT]
    methods :=
      [ { canonicalName := "introduce", altName := none, paramTypes := []
          invoke := fun i _ => .ok (.null, i) }
      , { canonicalName := "celebrate_birthday", altName := none, paramTypes := []
          invoke := fun i _ =>
            match fieldGet "age" i with
            | .int n => .ok (.null, fieldSet "age" i (.int (n + 1)))
            | _ => .error .typeMismatch }
      ] }

/-- Modelled from the spec: a `Person` instance as constructed with typed
arguments `(name, age, height)`; the height is a decimal literal `hm * 10 ^
(-he)`. -/
def mkPerson (nm : String) (age : Int) (hm : Int) (he : Nat) : ReflectiveObject :=
  { classDescriptor := personDescriptor
    inst := [("name", .str nm), ("age", .int age), ("height", .float hm he)] }

/-- Modelled from the spec: a minimal reflective instance holding one
`ObjectRef` member pointing at another heap object, used to form reference
cycles. -/
def mkRefNode (memberName : String) (target : Nat) : ReflectiveObject :=
  { classDescriptor :=
      { className := "Node"
        members := [fieldMember memberName .objRefT]
        methods := [] }
    inst := [(memberName, .objRef target)] }

/-- A canonical name assembled from its word segments: the words joined by
single underscores. -/
def joinUnderscore : List (List Char) → List Char
  | [] => []
  | [w] => w
  | w :: ws => w ++ '_' :: joinUnderscore ws

theorem except_bind_ok {ε α β : Type} (a : α) (f : α → Except ε β) :
    (Except.ok a : Except ε α) >>= f = f a := rfl

theorem except_bind_error {ε α β : Type} (e : ε) (f : α → Except ε β) :
    (Except.error e : Except ε α) >>= f = .error e := rfl

theorem fieldMember_name (nm : String) (ty : TypeTag) : (fieldMember nm ty).name = nm := rfl

theorem exportVal_objRef (fuel : Nat) (heap : Heap) (visited : List Nat) (id : Nat) :
    exportVal (fuel + 1) heap visited (.objRef id) =
      (if visited.contains id then .error .cyclicReference
      else
        match heap.lookup id with
        | none => .error .danglingReference
        | some obj => do
          let parts ← (getMemberNames obj).mapM (fun nm => do
            let mv ← getMemberValue obj nm
            let s ← exportVal fuel heap (id :: visited) mv
            pure (jsonQuote nm ++ ": " ++ s))
          .ok ("\x7b" ++ String.intercalate ", " parts ++ "\x7d")) := rfl

theorem getMemberNames_mkRefNode (nm : String) (t : Nat) :
    getMemberNames (mkRefNode nm t) = [nm] := rfl

theorem getMemberValue_mkRefNode (nm : String) (t : Nat) :
    getMemberValue (mkRefNode nm t) nm = .ok (.objRef t) := by
  simp [getMemberValue, findMember, mkRefNode, fieldMember, fieldGet, List.find?, List.lookup]

theorem cyclic_export_aux (fuel : Nat) (heap : Heap) (ida idb : Nat) (na nb : String)
    (h : ida ≠ idb)
    (ha : heap.lookup ida = some (mkRefNode na idb))
    (hb : heap.lookup idb = some (mkRefNode nb ida)) :
    exportVal (fuel + 3) heap [] (.objRef ida) = .error .cyclicReference := by
  have hab : (ida == idb) = false := beq_eq_false_iff_ne.mpr h
  have hba : (idb == ida) = false := beq_eq_false_iff_ne.mpr (Ne.symm h)
  rw [exportVal_objRef]
  simp only [List.contains, List.elem, Bool.false_eq_true, if_false, ha,
    getMemberNames_mkRefNode, fieldMember_name, List.mapM, List.mapM.loop,
    getMemberValue_mkRefNode, except_bind_ok]
  rw [exportVal_objRef]
  simp only [List.contains, List.elem, hba, Bool.false_eq_true, if_false, hb,
    getMemberNames_mkRefNode, fieldMember_name, List.mapM, List.mapM.loop,
    getMemberValue_mkRefNode, except_bind_ok]
  rw [exportVal_objRef]
  simp [List.contains, List.elem, hab, except_bind_error]

/-- Claim C8: in any heap where two distinct objects hold `ObjectRef`
members referencing each other, the JSON export of either object terminates
(the exporter is a total function) and fails with `CyclicReference` — the
reference chain revisits an already-open object — rather than recursing
forever. -/
theorem cyclic_export_guard (heap : Heap) (ida idb : Nat) (na nb : String)
    (h : ida ≠ idb)
    (ha : heap.lookup ida = some (mkRefNode na idb))
    (hb : heap.lookup idb = some (mkRefNode nb ida)) :
    toJsonRef heap ida = .error .cyclicReference ∧
    toJsonRef heap idb = .error .cyclicReference := by
  constructor
  · show exportVal (2 * heap.length + 3) heap [] (.objRef ida) = _
    exact cyclic_export_aux (2 * heap.length) heap ida idb na nb h ha hb
  · show exportVal (2 * heap.length + 3) heap [] (.objRef idb) = _
    exact cyclic_export_aux (2 * heap.length) heap idb ida nb na (Ne.symm h) hb ha

/-- Claim C8 witness: two concrete mutually referencing instances — the
export of either one fails with `CyclicReference`. -/
theorem cyclic_export_guard_witness :
    toJsonRef [(0, mkRefNode "other" 1), (1, mkRefNode "back" 0)] 0 =
      .error .cyclicReference ∧
    toJsonRef [(0, mkRefNode "other" 1), (1, mkRefNode "back" 0)] 1 =
      .error .cyclicReference :=
  cyclic_export_guard [(0, mkRefNode "other" 1), (1, mkRefNode "back" 0)]
    0 1 "other" "back" (by decide) rfl rfl

end Rosetta

namespace FindAndTest

/-- Substring containment on character lists, the semantics of Python's
`sub in path` membership test on strings. -/
def containsSub (hay sub : List Char) : Bool :=
  match hay with
  | [] => sub.isEmpty
  | _ :: t => sub.isPrefixOf hay || containsSub t sub

/-- `module_priority` from examples/python/functions/find_and_test.py:
`score = len(path)`, minus 100 if `'Release' in path`, plus 100 if
`'Debug' in path`; lower is better. -/
def module_priority (path : String) : Int :=
  let score : Int := path.length
  let score := if containsSub path.data "Release".data then score - 100 else score
  let score := if containsSub path.data "Debug".data then score + 100 else score
  score

/-- The module-selection step of find_and_test.py:
`found_modules.sort(key=module_priority); module_path = found_modules[0]` —
a stable sort by priority followed by taking the first element. -/
def selectModule (found_modules : List String) : Option String :=
  (List.insertionSort (fun a b => module_priority a ≤ module_priority b)
    found_modules).head?

/-- Claim C10: `module_priority` is the pure deterministic function
`len(path) − 100·[contains Release] + 100·[contains Debug]` of the path
string, and for any two found module paths of equal length where exactly
one contains `Release` and the other contains `Debug`, the `Release` path
has strictly lower priority, so the stable sort by `module_priority` places
it first and it is the module selected for import and testing, whichever
order the search produced them in. -/
theorem release_preferred :
    (∀ s : String, module_priority s =
      (s.length : Int)
        - (if containsSub s.data "Release".data then 100 else 0)
        + (if containsSub s.data "Debug".data then 100 else 0)) ∧
    (∀ p q : String,
      p.length = q.length →
      containsSub p.data "Release".data = true →
      containsSub q.data "Release".data = false →
      containsSub q.data "Debug".data = true →
      module_priority p < module_priority q ∧
      selectModule [p, q] = some p ∧
      selectModule [q, p] = some p) := by
  have hform : ∀ s : String, module_priority s =
      (s.length : Int)
        - (if containsSub s.data "Release".data then 100 else 0)
        + (if containsSub s.data "Debug".data then 100 else 0) := by
    intro s
    unfold module_priority
    by_cases h1 : containsSub s.data "Release".data = true <;>
      by_cases h2 : containsSub s.data "Debug".data = true <;>
      simp [h1, h2]
  refine ⟨hform, ?_⟩
  intro p q hlen hpR hqR hqD
  have hcast : (p.length : Int) = (q.length : Int) := by exact_mod_cast hlen
  have hp : module_priority p ≤ (p.length : Int) := by
    rw [hform p, hpR]
    by_cases h2 : containsSub p.data "Debug".data = true <;> simp [h2]
  have hq : module_priority q = (q.length : Int) + 100 := by
    rw [hform q, hqR, hqD]
    simp
  have hlt : module_priority p < module_priority q := by
    rw [hq]
    omega
  have hle : module_priority p ≤ module_priority q := le_of_lt hlt
  have hnle : ¬ module_priority q ≤ module_priority p := not_le.mpr hlt
  refine ⟨hlt, ?_, ?_⟩
  · simp [selectModule, List.insertionSort, List.orderedInsert, hle]
  · simp [selectModule, List.insertionSort, List.orderedInsert, hnle]

/-- Claim C10 witness: for the equal-length concrete paths `abcRelease`
and `abcdeDebug`, the `Release` path has strictly lower priority and is
selected from either discovery order. -/
theorem release_preferred_witness :
    module_priority "abcRelease" < module_priority "abcdeDebug" ∧
    selectModule ["abcRelease", "abcdeDebug"] = some "abcRelease" ∧
    selectModule ["abcdeDebug", "abcRelease"] = some "abcRelease" :=
  release_preferred.2 "abcRelease" "abcdeDebug" (by decide) (by decide)
    (by decide) (by decide)

end FindAndTest

namespace Rosetta

/-- A read-only example instance: one member `x` with no registered setter. -/
def readOnlyObj : ReflectiveObject :=
  { classDescriptor :=
      { className := "RO"
        members := [{ name := "x", declaredType := .intT, get := fieldGet "x", set := none }]
        methods := [] }
    inst := [("x", .int 1)] }

theorem lookup_append_of_none {α β : Type} [BEq α] (a : α) (l l' : List (α × β))
    (h : List.lookup a l = none) : List.lookup a (l ++ l') = List.lookup a l' := by
  induction l with
  | nil => simp
  | cons x xs ih =>
    obtain ⟨k, b⟩ := x
    cases hx : a == k with
    | true => simp [List.lookup, hx] at h
    | false =>
      simp only [List.cons_append, List.lookup, hx] at h ⊢
      exact ih h

theorem lookup_field_set (key : String) (i : InstanceHandle) (v : Value) :
    fieldGet key (fieldSet key i v) = v := by
  simp [fieldGet, fieldSet, List.lookup]

/-- Claim C1: for every registered member with a setter whose accessors are
the field-backed closures produced at registration, `setMemberValue(m, v)`
followed by `getMemberValue(m)` on the same object returns exactly `v`, for
every `v` inside the member's declared type domain. -/
theorem get_set_consistency (obj : ReflectiveObject) (nm : String)
    (m : MemberDescriptor) (v : Value)
    (hfind : findMember obj.classDescriptor nm = some m)
    (hget : m.get = fieldGet m.name)
    (hset : m.set = some (fieldSet m.name))
    (hv : valueMatches m.declaredType v = true) :
    (setMemberValue obj nm v).1 = .ok () ∧
    getMemberValue (setMemberValue obj nm v).2 nm = .ok v := by
  simp only [setMemberValue, hfind, hset, hv, if_true]
  refine ⟨trivial, ?_⟩
  simp only [getMemberValue, hfind, hget, lookup_field_set]

/-- Claim C1 witness: setting `age` to `25` on a concrete `Person` and
reading it back yields `25`. -/
theorem get_set_consistency_witness :
    getMemberValue (setMemberValue (mkPerson "Alice" 30 165 2) "age" (.int 25)).2 "age"
      = .ok (.int 25) :=
  (get_set_consistency (mkPerson "Alice" 30 165 2) "age"
    (fieldMember "age" .intT) (.int 25) rfl rfl rfl rfl).2

/-- Claim C3: after a successful registration of a class name, registering a
second descriptor under the same name fails with `DuplicateClass` and the
registry still maps that name to the first descriptor, unchanged. -/
theorem registration_uniqueness (reg : TypeRegistry) (cd1 cd2 : ClassDescriptor)
    (hfresh : reg.classes.lookup cd1.className = none)
    (hsame : cd2.className = cd1.className) :
    (reg.register cd1).1 = .ok () ∧
    (reg.register cd1).2.register cd2 = (.error .duplicateClass, (reg.register cd1).2) ∧
    ((reg.register cd1).2.register cd2).2.lookupClass cd1.className = some cd1 := by
  have hreg1 : reg.register cd1 = (.ok (), ⟨reg.classes ++ [(cd1.className, cd1)]⟩) := by
    simp only [TypeRegistry.register, hfresh]
  have hlook : (reg.classes ++ [(cd1.className, cd1)]).lookup cd1.className = some cd1 := by
    rw [lookup_append_of_none _ _ _ hfresh]
    simp [List.lookup]
  have hreg2 : (TypeRegistry.mk (reg.classes ++ [(cd1.className, cd1)])).register cd2
      = (.error .duplicateClass, ⟨reg.classes ++ [(cd1.className, cd1)]⟩) := by
    simp only [TypeRegistry.register, hsame, hlook]
  refine ⟨by rw [hreg1], by rw [hreg1]; exact hreg2, ?_⟩
  rw [hreg1]
  show ((TypeRegistry.mk (reg.classes ++ [(cd1.className, cd1)])).register cd2).2.lookupClass
      cd1.className = some cd1
  rw [hreg2]
  exact hlook

/-- Claim C3 witness: registering `Person` twice into an empty registry —
the second call fails with `DuplicateClass` and the lookup still returns the
first descriptor. -/
theorem registration_uniqueness_witness :
    (TypeRegistry.mk []).register personDescriptor
        = (.ok (), ⟨[("Person", personDescriptor)]⟩) ∧
    ((TypeRegistry.mk []).register personDescriptor).2.register personDescriptor
        = (.error .duplicateClass, ((TypeRegistry.mk []).register personDescriptor).2) := by
  have h := registration_uniqueness (TypeRegistry.mk []) personDescriptor personDescriptor
    rfl rfl
  exact ⟨rfl, h.2.1⟩

/-- Claim C2: `toJson` is a pure function of the heap and the instance, so
exporting the same unmutated instance twice yields byte-identical strings;
and the export of a `Person` constructed with `("Alice", 30, 1.65)` is
exactly the object document with the keys `name`, `age`, `height` in
registration order (the member catalog's order, the source of
`getMemberNames()`) and the values `"Alice"`, `30`, `1.65`. -/
theorem json_determinism :
    (∀ (heap : Heap) (obj : ReflectiveObject), toJson heap obj = toJson heap obj) ∧
    getMemberNames (mkPerson "Alice" 30 165 2) = ["name", "age", "height"] ∧
    toJson [] (mkPerson "Alice" 30 165 2) =
      .ok "\x7b\"name\": \"Alice\", \"age\": 30, \"height\": 1.65\x7d" :=
  ⟨fun _ _ => rfl, rfl, rfl⟩

/-- Claim C6: whenever `setMemberValue` returns an error — `UnknownMember`
for an absent name, `ReadOnlyMember` for a setter-less member,
`TypeMismatch` when the value fails marshaling against the declared type —
the object after the call is exactly the object before it: the mutation is
atomic. -/
theorem set_member_atomic (obj : ReflectiveObject) (nm : String) (v : Value) :
    (∀ e, (setMemberValue obj nm v).1 = .error e → (setMemberValue obj nm v).2 = obj) ∧
    (findMember obj.classDescriptor nm = none →
      setMemberValue obj nm v = (.error .unknownMember, obj)) ∧
    (∀ m, findMember obj.classDescriptor nm = some m → m.set = none →
      setMemberValue obj nm v = (.error .readOnlyMember, obj)) ∧
    (∀ m f, findMember obj.classDescriptor nm = some m → m.set = some f →
      valueMatches m.declaredType v = false →
      setMemberValue obj nm v = (.error .typeMismatch, obj)) := by
  refine ⟨?_, ?_, ?_, ?_⟩
  · intro e he
    cases hf : findMember obj.classDescriptor nm with
    | none => simp only [setMemberValue, hf]
    | some m =>
      cases hs : m.set with
      | none => simp only [setMemberValue, hf, hs]
      | some f =>
        cases hv : valueMatches m.declaredType v with
        | true =>
          simp only [setMemberValue, hf, hs, hv, if_true] at he
          exact absurd he (by simp)
        | false =>
          simp only [setMemberValue, hf, hs, hv, Bool.false_eq_true, if_false]
  · intro hf
    simp only [setMemberValue, hf]
  · intro m hf hs
    simp only [setMemberValue, hf, hs]
  · intro m f hf hs hv
    simp only [setMemberValue, hf, hs, hv, Bool.false_eq_true, if_false]

/-- Claim C6 witness: setting the setter-less member `x` of a concrete
read-only object fails with `ReadOnlyMember` and leaves the object
untouched. -/
theorem set_member_atomic_witness :
    setMemberValue readOnlyObj "x" (.int 2) = (.error .readOnlyMember, readOnlyObj) :=
  (set_member_atomic readOnlyObj "x" (.int 2)).2.2.1
    { name := "x", declaredType := .intT, get := fieldGet "x", set := none } rfl rfl

/-- Claim C7: when the argument sequence's length differs from the resolved
method's `paramTypes` length, `callMethod` fails with `ArityMismatch` and
returns the object unchanged — the equation holds for every invoker closure,
so the underlying method is never invoked; in particular calling the
zero-argument `introduce` of a `Person` with one argument so fails. -/
theorem arity_guard :
    (∀ (obj : ReflectiveObject) (nm : String) (m : MethodDescriptor) (args : List Value),
      findMethod obj.classDescriptor nm = some m →
      args.length ≠ m.paramTypes.length →
      callMethod obj nm args = (.error .arityMismatch, obj)) ∧
    (∀ (nm : String) (age hm : Int) (he : Nat),
      callMethod (mkPerson nm age hm he) "introduce" [.int 1] =
        (.error .arityMismatch, mkPerson nm age hm he)) := by
  have main : ∀ (obj : ReflectiveObject) (nm : String) (m : MethodDescriptor)
      (args : List Value),
      findMethod obj.classDescriptor nm = some m →
      args.length ≠ m.paramTypes.length →
      callMethod obj nm args = (.error .arityMismatch, obj) := by
    intro obj nm m args hfind hlen
    simp only [callMethod, hfind, if_neg hlen]
  refine ⟨main, ?_⟩
  intro nm age hm he
  exact main _ _ _ _ rfl (by decide)

/-- Claim C7 witness: `callMethod("introduce", [1])` on a concrete `Person`
fails with `ArityMismatch` and leaves the instance unchanged. -/
theorem arity_guard_witness :
    callMethod (mkPerson "Alice" 30 165 2) "introduce" [.int 1] =
      (.error .arityMismatch, mkPerson "Alice" 30 165 2) :=
  arity_guard.1 (mkPerson "Alice" 30 165 2) "introduce"
    { canonicalName := "introduce", altName := none, paramTypes := []
      invoke := fun i _ => .ok (.null, i) }
    [.int 1] rfl (by decide)

/-- An example method carrying an explicitly declared alternate name that
is not the mechanical transform of its canonical name. -/
def infoMethod : MethodDescriptor :=
  { canonicalName := "get_info", altName := some "fetchInfo", paramTypes := []
    invoke := fun i _ => .ok (.null, i) }

/-- An example class declaring `infoMethod` as its only method. -/
def altNameClass : ClassDescriptor :=
  { className := "Alt", members := [], methods := [infoMethod] }

/-- Claim C4: on any `Person` instance, `callMethod("celebrate_birthday",
args)` and `callMethod("celebrateBirthday", args)` resolve to the same
`MethodDescriptor`, invoke the same underlying method and produce the same
result and resulting state; and an explicitly declared `altName` takes
precedence over the mechanical transform: the method resolves under its
declared alternate name while the mechanical camelCase form of its
canonical name (when distinct from both) resolves to nothing. -/
theorem method_resolution_equiv :
    (∀ (i : InstanceHandle) (args : List Value),
      callMethod ⟨personDescriptor, i⟩ "celebrate_birthday" args =
        callMethod ⟨personDescriptor, i⟩ "celebrateBirthday" args) ∧
    findMethod personDescriptor "celebrate_birthday" =
      findMethod personDescriptor "celebrateBirthday" ∧
    (∀ (cd : ClassDescriptor) (m : MethodDescriptor) (a : String),
      cd.methods = [m] → m.altName = some a →
      findMethod cd a = some m ∧
      (m.canonicalName ≠ toAlternateConvention m.canonicalName →
       a ≠ toAlternateConvention m.canonicalName →
       findMethod cd (toAlternateConvention m.canonicalName) = none)) := by
  refine ⟨fun i args => rfl, rfl, ?_⟩
  intro cd m a hcd halt
  constructor
  · unfold findMethod
    rw [hcd]
    by_cases hc : m.canonicalName = a
    · simp [List.find?, hc]
    · have hcb : (m.canonicalName == a) = false := beq_eq_false_iff_ne.mpr hc
      simp [List.find?, methodAltName, halt, hcb]
  · intro hne hane
    unfold findMethod
    rw [hcd]
    have h1 : (m.canonicalName == toAlternateConvention m.canonicalName) = false :=
      beq_eq_false_iff_ne.mpr hne
    have h2 : (a == toAlternateConvention m.canonicalName) = false :=
      beq_eq_false_iff_ne.mpr hane
    simp [List.find?, methodAltName, halt, h1, h2]

/-- Claim C4 witness: `celebrate_birthday` and `celebrateBirthday` give the
same call result on a concrete `Person`, and the explicitly declared
alternate name `fetchInfo` of `get_info` resolves while the mechanical
`getInfo` does not. -/
theorem method_resolution_equiv_witness :
    callMethod ⟨personDescriptor, [("age", Value.int 30)]⟩ "celebrate_birthday" [] =
      callMethod ⟨personDescriptor, [("age", Value.int 30)]⟩ "celebrateBirthday" [] ∧
    findMethod altNameClass "fetchInfo" = some infoMethod ∧
    findMethod altNameClass (toAlternateConvention "get_info") = none := by
  have h := method_resolution_equiv.2.2 altNameClass infoMethod "fetchInfo" rfl rfl
  exact ⟨method_resolution_equiv.1 [("age", Value.int 30)] [], h.1,
    h.2 (by decide) (by decide)⟩

theorem lower_ne_underscore : ∀ c ∈ lowerChars, c ≠ '_' := by decide

theorem asciiLower_asciiUpper : ∀ c ∈ lowerChars, asciiLower (asciiUpper c) = c := by
  decide

theorem isAsciiUpper_asciiUpper : ∀ c ∈ lowerChars, isAsciiUpper (asciiUpper c) = true := by
  decide

theorem isAsciiUpper_of_lower : ∀ c ∈ lowerChars, isAsciiUpper c = false := by decide

theorem capWords_cons_of_ne (c : Char) (l : List Char) (hc : c ≠ '_') :
    capWords (c :: l) = c :: capWords l := by
  cases l <;> simp [capWords, hc]

theorem capWords_append (w t : List Char) (hw : ∀ c ∈ w, c ∈ lowerChars) :
    capWords (w ++ t) = w ++ capWords t := by
  induction w with
  | nil => simp
  | cons c w ih =>
    rw [List.cons_append,
      capWords_cons_of_ne c _ (lower_ne_underscore c (hw c (by simp))),
      ih (fun d hd => hw d (by simp [hd])), List.cons_append]

theorem canonChar_of_lower (c : Char) (h : c ∈ lowerChars) : canonChar c = [c] := by
  simp [canonChar, isAsciiUpper_of_lower c h]

theorem flatMap_canonChar_of_lower (w : List Char) (hw : ∀ c ∈ w, c ∈ lowerChars) :
    w.flatMap canonChar = w := by
  induction w with
  | nil => simp
  | cons c w ih =>
    rw [List.flatMap_cons, canonChar_of_lower c (hw c (by simp)),
      ih (fun d hd => hw d (by simp [hd]))]
    rfl

theorem canonChar_asciiUpper (c : Char) (h : c ∈ lowerChars) :
    canonChar (asciiUpper c) = ['_', c] := by
  simp [canonChar, isAsciiUpper_asciiUpper c h, asciiLower_asciiUpper c h]

theorem canon_capWords_join (ws : List (List Char))
    (h : ∀ w ∈ ws, w ≠ [] ∧ ∀ c ∈ w, c ∈ lowerChars) :
    (capWords (joinUnderscore ws)).flatMap canonChar = joinUnderscore ws := by
  induction ws with
  | nil => simp [joinUnderscore, capWords]
  | cons w ws ih =>
    have hw : ∀ c ∈ w, c ∈ lowerChars := (h w (by simp)).2
    cases ws with
    | nil =>
      have hcap : capWords w = w := by
        have := capWords_append w [] hw
        simpa [capWords] using this
      rw [show joinUnderscore [w] = w from rfl, hcap, flatMap_canonChar_of_lower w hw]
    | cons w2 rest =>
      have htail : ∀ u ∈ w2 :: rest, u ≠ [] ∧ ∀ c ∈ u, c ∈ lowerChars :=
        fun u hu => h u (by simp [hu])
      have ihtail := ih htail
      obtain ⟨r, hr⟩ : ∃ r, joinUnderscore (w2 :: rest) = w2 ++ r := by
        cases rest with
        | nil => exact ⟨[], by simp [joinUnderscore]⟩
        | cons w3 rest2 => exact ⟨'_' :: joinUnderscore (w3 :: rest2), rfl⟩
      obtain ⟨c, w2', hw2⟩ : ∃ c w2', w2 = c :: w2' := by
        cases hw2 : w2 with
        | nil => exact absurd hw2 (htail w2 (by simp)).1
        | cons c w2' => exact ⟨c, w2', rfl⟩
      have hc : c ∈ lowerChars := (htail w2 (by simp)).2 c (by simp [hw2])
      have hflat : (capWords (w2' ++ r)).flatMap canonChar = w2' ++ r := by
        have hstep : capWords (joinUnderscore (w2 :: rest)) =
            c :: capWords (w2' ++ r) := by
          rw [hr, hw2, List.cons_append,
            capWords_cons_of_ne c _ (lower_ne_underscore c hc)]
        rw [hstep] at ihtail
        rw [List.flatMap_cons, canonChar_of_lower c hc, hr, hw2] at ihtail
        simpa using ihtail
      have hgoal : joinUnderscore (w :: w2 :: rest) =
          w ++ '_' :: joinUnderscore (w2 :: rest) := rfl
      rw [hgoal, capWords_append _ _ hw, hr, hw2, List.cons_append,
        show capWords ('_' :: c :: (w2' ++ r)) = asciiUpper c :: capWords (w2' ++ r)
          from rfl,
        List.flatMap_append, flatMap_canonChar_of_lower w hw, List.flatMap_cons,
        canonChar_asciiUpper c hc, hflat]
      rfl

/-- Claim C5: for every canonical name composed of nonempty ASCII
lower-case word segments joined by underscores, converting to the alternate
(camelCase) convention and back is the identity:
`toCanonical(toAlternateConvention(name)) = name`; both transforms are pure
total functions on strings with no locale dependency. -/
theorem naming_roundtrip (ws : List (List Char))
    (hne : ws ≠ [])
    (h : ∀ w ∈ ws, w ≠ [] ∧ ∀ c ∈ w, c ∈ lowerChars) :
    toCanonical (toAlternateConvention (String.mk (joinUnderscore ws)))
      = String.mk (joinUnderscore ws) := by
  show String.mk ((capWords (joinUnderscore ws)).flatMap canonChar)
      = String.mk (joinUnderscore ws)
  exact congrArg String.mk (canon_capWords_join ws h)

/-- Claim C5 witness: round-tripping the canonical name
`celebrate_birthday` through the alternate convention is the identity. -/
theorem naming_roundtrip_witness :
    toCanonical (toAlternateConvention "celebrate_birthday") = "celebrate_birthday" := by
  have h := naming_roundtrip
    [ ['c', 'e', 'l', 'e', 'b', 'r', 'a', 't', 'e'],
      ['b', 'i', 'r', 't', 'h', 'd', 'a', 'y'] ]
    (by decide) (by decide)
  exact h

/-- Claim C9: a name absent from the member catalog makes `getMemberValue`
fail with `UnknownMember`; a name resolving to no method makes `callMethod`
fail with `UnknownMethod` and leave the object unchanged; and a failed
member lookup is never conflated with a legitimate `Null` value. -/
theorem unknown_name_handling (obj : ReflectiveObject) (nm : String) (args : List Value) :
    (findMember obj.classDescriptor nm = none →
      getMemberValue obj nm = .error .unknownMember) ∧
    (findMethod obj.classDescriptor nm = none →
      callMethod obj nm args = (.error .unknownMethod, obj)) ∧
    (findMember obj.classDescriptor nm = none →
      getMemberValue obj nm ≠ .ok Value.null) := by
  refine ⟨?_, ?_, ?_⟩
  · intro hf
    simp only [getMemberValue, hf]
  · intro hf
    simp only [callMethod, hf]
  · intro hf
    simp only [getMemberValue, hf]
    simp

/-- Claim C9 witness: on a concrete `Person`,
`getMemberValue("doesNotExist")` fails with `UnknownMember` (and is not
`Null`) and `callMethod("noSuchMethod", [])` fails with `UnknownMethod`. -/
theorem unknown_name_handling_witness :
    getMemberValue (mkPerson "Alice" 30 165 2) "doesNotExist" = .error .unknownMember ∧
    callMethod (mkPerson "Alice" 30 165 2) "noSuchMethod" [] =
      (.error .unknownMethod, mkPerson "Alice" 30 165 2) := by
  have h := unknown_name_handling (mkPerson "Alice" 30 165 2) "doesNotExist" []
  have h2 := unknown_name_handling (mkPerson "Alice" 30 165 2) "noSuchMethod" []
  exact ⟨h.1 rfl, h2.2.1 rfl⟩

end Rosetta
